import Mathlib

/-!
Verification of the wall-clock converter of `src/components/TimeTools.tsx`
against its specification.

The component's only collaborators are platform facilities: `Intl.DateTimeFormat`
(the spec's Zone-Aware Formatter, §6), `Date.UTC`, `String.prototype.split` and
`Number`.  The formatter is modelled as a parameter (a function from instants to
calendar fields, or to time-zone-name strings), exactly as §6 and §9 prescribe;
an unresolvable zone identifier is `none` (the `Intl.DateTimeFormat` constructor
throws a RangeError for it).  `Date.UTC` and the string utilities are modelled
concretely on integers and character lists.  Instants are milliseconds since the
epoch as unbounded integers; the ±8.64e15 TimeClip bound of the platform is not
modelled, every instant in the claims being far inside it.
-/

namespace TimeTools

/-- Result of a JS call: a normal value, or a thrown exception that escaped. -/
inductive JsResult (α : Type) where
  | thrown : JsResult α
  | value : α → JsResult α
deriving DecidableEq, Repr

/-- A JS `Date`: a valid instant (ms since epoch) or an Invalid Date (`none`). -/
abbrev JsDate := Option Int

/-- A JS number restricted to the integers, `none` standing for NaN. -/
abbrev JsNum := Option Int

/-- The numeric calendar fields a zone-aware formatter reports for one instant:
the `formatToParts` year/month/day/hour/minute values (month 1-based; the hour
may be reported as 24 by some platforms at midnight). -/
structure FParts where
  y : Int
  mon : Int
  d : Int
  h : Int
  min : Int
deriving DecidableEq, Repr

/-- A resolvable zone, the spec §6 Zone-Aware Formatter field query: the
calendar fields each instant displays in that zone. -/
abbrev Fmt := Int → FParts

/-- Decimal digit value of a character. -/
def dval (c : Char) : Nat := c.toNat - 48

/-- ASCII decimal digit test. -/
def isDig (c : Char) : Bool := 48 ≤ c.toNat && c.toNat ≤ 57

/-- Value of a big-endian decimal digit list. -/
def ofDigits (l : List Char) : Nat := l.foldl (fun a c => 10 * a + dval c) 0

/-- The character of a decimal digit. -/
def digitCh (n : Nat) : Char := Char.ofNat (48 + n)

/-- Decimal digits of a natural number, fuelled so that it is structural. -/
def natDigitsAux : Nat → Nat → List Char
  | 0, _ => []
  | fuel + 1, n => if n < 10 then [digitCh n] else natDigitsAux fuel (n / 10) ++ [digitCh (n % 10)]

/-- Decimal digits of a natural number. -/
def natDigits (n : Nat) : List Char := natDigitsAux (n + 1) n

/-- JS decimal rendering of an integer (`toString`, and the formatter's
`numeric` field style). -/
def intDigits (i : Int) : List Char :=
  if i < 0 then '-' :: natDigits i.natAbs else natDigits i.toNat

/-- The formatter's `2-digit` field style: values below ten get a leading 0. -/
def pad2 (i : Int) : List Char :=
  if 0 ≤ i ∧ i < 10 then '0' :: natDigits i.toNat else intDigits i

/-- JS `Number(string)` on the fragment this component feeds it: the empty
string is 0, a nonempty all-digit string is its decimal value, anything else is
NaN (`none`).  (Signed, fractional, hexadecimal or padded numerals never reach
this call site in a form the claims depend on.) -/
def jsNumberL (l : List Char) : JsNum :=
  if l = [] then some 0
  else if l.all isDig then some ((ofDigits l : Nat) : Int) else none

/-- JS `String.prototype.split` with a one-character separator, on the
character list of the string. -/
def splitCh (sep : Char) : List Char → List (List Char)
  | [] => [[]]
  | c :: cs =>
    match splitCh sep cs with
    | [] => [[]]
    | g :: gs => if c = sep then [] :: g :: gs else (c :: g) :: gs

/-- JS array indexing on split results: a missing element is `undefined`,
which every use site treats like the empty string. -/
def sget (l : List (List Char)) (i : Nat) : List Char := l.getD i []

/-- JS array indexing after `.map(Number)`: a missing element is `undefined`,
which every use site turns into NaN. -/
def jget (l : List JsNum) (i : Nat) : JsNum := l.getD i none

/-- The object `{y, mon: mon - 1, d, h, min}` built by `parseIsoLocal`
(TimeTools.tsx line 36); each field is a JS number, possibly NaN.  The month is
already 0-based. -/
structure RawClock where
  y : JsNum
  mon : JsNum
  d : JsNum
  h : JsNum
  min : JsNum
deriving DecidableEq, Repr

/-- TimeTools.tsx lines 30-37, `parseIsoLocal`, on the character list: reject
the empty string, split on 'T', reject a missing date or time part, then split
the two parts on '-' and ':' and convert the pieces with `Number`. -/
def parseIsoLocalL (l : List Char) : Option RawClock :=
  if l = [] then none
  else
    let parts := splitCh 'T' l
    let date := sget parts 0
    let time := sget parts 1
    if date = [] ∨ time = [] then none
    else
      let ds := (splitCh '-' date).map jsNumberL
      let ts := (splitCh ':' time).map jsNumberL
      some ⟨jget ds 0, (jget ds 1).map (fun x => x - 1), jget ds 2, jget ts 0, jget ts 1⟩

/-- TimeTools.tsx lines 30-37, `parseIsoLocal`. -/
def parseIsoLocal (s : String) : Option RawClock := parseIsoLocalL s.data

/-- Days from 1970-01-01 of a proleptic Gregorian date with month in 1..12 and
an arbitrary day (out-of-range days carried linearly, as ECMA-262 MakeDay
does); the standard 400-year-era algorithm. -/
def daysFromCivil (y m d : Int) : Int :=
  let yy := if m ≤ 2 then y - 1 else y
  let era := yy / 400
  let yoe := yy - era * 400
  let mp := (m + 9) % 12
  let doy := (153 * mp + 2) / 5 + d - 1
  let doe := yoe * 365 + yoe / 4 - yoe / 100 + doy
  era * 146097 + doe - 719468

/-- ECMA-262 `Date.UTC(y, mon, d, h, min)` on integer arguments: month 0-based
and normalized by carrying into the year, overflow in the other arguments
carried linearly, and years 0..99 mapped to 1900..1999. -/
def utcEncode (y mon d h mi : Int) : Int :=
  let yq := if 0 ≤ y ∧ y ≤ 99 then 1900 + y else y
  let ym := yq + mon / 12
  let mn := mon % 12
  daysFromCivil ym (mn + 1) d * 86400000 + h * 3600000 + mi * 60000

/-- `Date.UTC` applied to the parsed fields (TimeTools.tsx lines 45 and 66): a
NaN in any field gives an invalid time value. -/
def utcEncodeRaw (c : RawClock) : JsNum :=
  match c.y, c.mon, c.d, c.h, c.min with
  | some y, some mon, some d, some h, some mi => some (utcEncode y mon d h mi)
  | _, _, _, _, _ => none

/-- The observed value one loop iteration computes (TimeTools.tsx lines 49-65):
the formatter fields of the provisional instant, hour 24 normalized to 0 on the
same calendar day, re-encoded naively with `Date.UTC` (month back to 0-based). -/
def observedMs (f : Fmt) (g : Int) : Int :=
  let p := f g
  utcEncode p.y (p.mon - 1) p.d (if p.h = 24 then 0 else p.h) p.min

/-- The `for (let i = 0; i < 3; i++)` convergence loop of TimeTools.tsx lines
48-72: break when the delta between the desired and observed naive encodings is
under 1000 ms, otherwise shift the guess by the delta; when the fuel is
exhausted the last guess is returned. -/
def convergeLoop (f : Fmt) (desired : Int) : Nat → Int → Int
  | 0, g => g
  | fuel + 1, g =>
    let diff := desired - observedMs f g
    if diff.natAbs < 1000 then g else convergeLoop f desired fuel (g + diff)

/-- TimeTools.tsx lines 40-74, `localStringToDate`.  A failed parse returns JS
`null` before the zone is touched.  With a parsed input, an unresolvable zone
makes the `Intl.DateTimeFormat` constructor inside the loop throw, and a NaN
field makes the seed guess an Invalid Date, on which `formatToParts` throws;
the function has no try/catch, so either exception escapes. -/
def localStringToDate (zone : Option Fmt) (s : String) : JsResult (Option JsDate) :=
  match parseIsoLocal s with
  | none => .value none
  | some c =>
    match zone with
    | none => .thrown
    | some f =>
      match utcEncodeRaw c with
      | none => .thrown
      | some n => .value (some (some (convergeLoop f n 3 n)))

/-- The template string of TimeTools.tsx line 86 on the formatter's part
values: year in `numeric` style, the other fields in `2-digit` style. -/
def isoPartsL (p : FParts) : List Char :=
  intDigits p.y ++ '-' :: (pad2 p.mon ++ '-' :: (pad2 p.d ++ 'T' :: (pad2 p.h ++ ':' :: pad2 p.min)))

/-- The rendered wall-clock string of one set of formatter fields. -/
def isoStringOfParts (p : FParts) : String := String.mk (isoPartsL p)

/-- TimeTools.tsx lines 77-90, `dateToLocalString`: emit the fields the zone
formatter reports for the instant; the surrounding try/catch turns an
unresolvable zone, or an Invalid Date, into the empty string. -/
def dateToLocalString (zone : Option Fmt) (d : JsDate) : String :=
  match zone, d with
  | none, _ => ""
  | some _, none => ""
  | some f, some t => isoStringOfParts (f t)

/-- Spec §4.3: `convert(w, fromZone, toZone) = renderWallClock(resolveInstant(w,
fromZone), toZone)`, the composition the handlers inline; a failed resolution
gives the empty string. -/
def convert (zFrom zTo : Option Fmt) (s : String) : String :=
  match localStringToDate zFrom s with
  | .value (some (some t)) => dateToLocalString zTo (some t)
  | _ => ""

/-- Which planner field was edited last (`lastEdited`, TimeTools.tsx line 27):
the spec §4.1 anchor state, `AnchoredOnA` being `user`. -/
inductive Side where
  | user : Side
  | client : Side
deriving DecidableEq, Repr

/-- The state the planner transitions act on: the two wall-clock input strings
and the anchor side. -/
structure PlannerState where
  userMeetingTime : String
  clientMeetingTime : String
  lastEdited : Side
deriving DecidableEq, Repr

/-- Outcome of an event handler: the state after all executed `setState` calls,
tagged by whether the handler ran to completion or an exception escaped. -/
inductive HandlerResult where
  | ok : PlannerState → HandlerResult
  | threw : PlannerState → HandlerResult
deriving DecidableEq, Repr

/-- TimeTools.tsx lines 115-128, `handleUserTimeChange`: store the new value,
set the anchor to `user`, then recompute the client field when the value is
nonempty and resolvable; an empty value clears the client field instead. -/
def handleUserTimeChange (userZone clientZone : Option Fmt) (val : String)
    (st : PlannerState) : HandlerResult :=
  let st1 : PlannerState := { st with userMeetingTime := val, lastEdited := .user }
  if val = "" then .ok { st1 with clientMeetingTime := "" }
  else
    match localStringToDate userZone val with
    | .thrown => .threw st1
    | .value none => .ok st1
    | .value (some d) => .ok { st1 with clientMeetingTime := dateToLocalString clientZone d }

/-- TimeTools.tsx lines 130-143, `handleClientTimeChange`, the mirror image. -/
def handleClientTimeChange (userZone clientZone : Option Fmt) (val : String)
    (st : PlannerState) : HandlerResult :=
  let st1 : PlannerState := { st with clientMeetingTime := val, lastEdited := .client }
  if val = "" then .ok { st1 with userMeetingTime := "" }
  else
    match localStringToDate clientZone val with
    | .thrown => .threw st1
    | .value none => .ok st1
    | .value (some d) => .ok { st1 with userMeetingTime := dateToLocalString userZone d }

/-- TimeTools.tsx lines 146-161, the body of the timezone-sync effect: the
anchored side's nonempty value is re-resolved in its (possibly new) zone and
the other field recomputed; every other case leaves the state alone. -/
def syncEffect (userZone clientZone : Option Fmt) (st : PlannerState) : HandlerResult :=
  if st.lastEdited = .user ∧ st.userMeetingTime ≠ "" then
    match localStringToDate userZone st.userMeetingTime with
    | .thrown => .threw st
    | .value none => .ok st
    | .value (some d) => .ok { st with clientMeetingTime := dateToLocalString clientZone d }
  else if st.lastEdited = .client ∧ st.clientMeetingTime ≠ "" then
    match localStringToDate clientZone st.clientMeetingTime with
    | .thrown => .threw st
    | .value none => .ok st
    | .value (some d) => .ok { st with userMeetingTime := dateToLocalString userZone d }
  else .ok st

/-- The four `timeZoneName` style strings the formatter reports for one instant
in a zone (styles short, shortOffset, longOffset, long); a missing part is the
empty string. -/
structure NameParts where
  short : String
  shortOffset : String
  longOffset : String
  long : String
deriving DecidableEq, Repr

/-- A resolvable zone's display-name query, spec §6 `formatName`. -/
abbrev NameFmt := Int → NameParts

/-- The offset-pattern test of TimeTools.tsx line 202. -/
def isOffsetLike (s : String) : Bool :=
  match s.data with
  | 'G' :: 'M' :: 'T' :: c :: _ => c == '+' || c == '-'
  | 'U' :: 'T' :: 'C' :: c :: _ => c == '+' || c == '-'
  | _ => false

/-- JS regex `\w` (ASCII word character). -/
def isWordChar (c : Char) : Bool := c.isAlpha || c.isDigit || c == '_'

/-- ASCII capital-letter test, the regex class `[A-Z]`. -/
def isUpperAZ (c : Char) : Bool := 65 ≤ c.toNat && c.toNat ≤ 90

/-- `longName.match(/\b([A-Z])/g)` joined (TimeTools.tsx line 213): the ASCII
capitals standing at a word boundary, i.e. whose previous character, if any, is
not a word character. -/
def acronymL (prevWord : Bool) : List Char → List Char
  | [] => []
  | c :: cs =>
    if isUpperAZ c && !prevWord then c :: acronymL (isWordChar c) cs
    else acronymL (isWordChar c) cs

/-- The acronym the long zone name yields under the capital-extraction
heuristic. -/
def acronymOf (s : String) : String := String.mk (acronymL false s.data)

/-- TimeTools.tsx lines 191-231, `getAbbreviation`; the try/catch turns an
unresolvable zone or an Invalid Date into the empty string. -/
def getAbbreviation (zone : Option NameFmt) (d : JsDate) : String :=
  match zone, d with
  | none, _ => ""
  | some _, none => ""
  | some f, some t =>
    let p := f t
    let shortName := p.short
    let offset := if p.shortOffset ≠ "" then p.shortOffset else p.longOffset
    let abbreviation :=
      if isOffsetLike shortName then
        if p.long ≠ "" then
          let acronym := acronymOf p.long
          if 2 ≤ acronym.length ∧ acronym.length ≤ 5 then acronym else shortName
        else shortName
      else shortName
    if isOffsetLike abbreviation then abbreviation
    else if abbreviation = offset then abbreviation
    else abbreviation ++ " (" ++ offset ++ ")"

/-- Spec §4.4 `zoneAbbreviation`, written from the spec's words: an
offset-pattern short name is replaced by the 2-5 letter capital acronym of the
long name when that heuristic succeeds, else the offset-style string is kept;
the final label is abbreviation plus parenthesised offset, collapsing to one
component when the two coincide or when no letter abbreviation was found. -/
def zoneAbbreviationSpec (p : NameParts) : String :=
  let offset := if p.shortOffset ≠ "" then p.shortOffset else p.longOffset
  let acronym := acronymOf p.long
  let ab :=
    if isOffsetLike p.short then
      if 2 ≤ acronym.length ∧ acronym.length ≤ 5 then acronym else p.short
    else p.short
  if isOffsetLike ab then ab
  else if ab = offset then ab
  else ab ++ " (" ++ offset ++ ")"

/-- Spec §4.1's provisional-instant sequence: seeded with the naive-UTC
encoding `n` of the desired fields, each later element shifted by the full
desired-minus-observed delta of the previous one. -/
def gSeq (f : Fmt) (n : Int) : Nat → Int
  | 0 => n
  | k + 1 => gSeq f n k + (n - observedMs f (gSeq f n k))

/-- Spec §4.1 step (c): the provisional instant's observed fields are within
one second (1000 ms) of the desired fields. -/
def convergedAt (f : Fmt) (n g : Int) : Prop := (n - observedMs f g).natAbs < 1000

/-- Fields a real zone formatter can report: 4-digit-era year (so the
`Date.UTC` 1900-mapping is inert), month 1..12, day 1..31, hour 0..23 and
minute 0..59. -/
def ValidParts (p : FParts) : Prop :=
  100 ≤ p.y ∧ p.y ≤ 9999 ∧ 1 ≤ p.mon ∧ p.mon ≤ 12 ∧ 1 ≤ p.d ∧ p.d ≤ 31 ∧
  0 ≤ p.h ∧ p.h ≤ 23 ∧ 0 ≤ p.min ∧ p.min ≤ 59

/-- An instant truncated to whole minutes, the precision of the formatter's
minute field. -/
def minuteFloor (x : Int) : Int := 60000 * (x / 60000)

/-- A zone-aware formatter that behaves, around the instant `center`, like a
real IANA zone with UTC-offset function `off` (in ms): displayed fields
re-encode naively to the offset-shifted instant at minute precision; fields are
valid within ±14 h of `center`; offsets are bounded by ±14 h (the IANA range)
and are whole minutes; any two offsets differ by at most the 2 h DST-shift
bound of spec §4.1; and the offset is constant on the 2 h buffer around
`center`, spec §8's exclusion of DST transition windows. -/
structure OffsetZone (f : Fmt) (off : Int → Int) (center : Int) : Prop where
  encode : ∀ t, utcEncode (f t).y ((f t).mon - 1) (f t).d (f t).h (f t).min = minuteFloor (t + off t)
  valid : ∀ t, (t - center).natAbs ≤ 50400000 → ValidParts (f t)
  bounded : ∀ s, (off s).natAbs ≤ 50400000
  wholeMinute : ∀ s, (60000 : Int) ∣ off s
  spread : ∀ s u, (off s - off u).natAbs ≤ 7200000
  stable : ∀ u, (u - center).natAbs ≤ 7200000 → off u = off center

/-- The UTC calendar fields of an epoch-relative instant, with the day of the
month counted linearly from 1970-01-01 (exact for the days right after the
epoch). -/
def epochParts (x : Int) : FParts :=
  ⟨1970, 1, 1 + x / 86400000, (x % 86400000) / 3600000, ((x % 86400000) % 3600000) / 60000⟩

/-- A fixed-offset zone formatter built from `epochParts`. -/
def epochFmt (c : Int) : Fmt := fun t => epochParts (t + c)

/-- The hour-24 fix of TimeTools.tsx line 62 applied to a field record: hour
24 becomes hour 0 of the same calendar day. -/
def h24norm (p : FParts) : FParts := { p with h := if p.h = 24 then 0 else p.h }

/-- A formatter that reports hour 24 at midnight (the platform quirk the spec
describes), used to probe the hour-24 handling. -/
def fmt24 : Fmt := fun _ => ⟨2024, 1, 15, 24, 0⟩

/-- A constant formatter displaying 2024-01-15 14:00 at every instant. -/
def fConst2024 : Fmt := fun _ => ⟨2024, 1, 15, 14, 0⟩

/-- The name strings a formatter reports for Asia/Kolkata: an offset-pattern
short name, and the long name whose capitals give IST. -/
def kolkataFmt : NameFmt := fun _ => ⟨"GMT+5:30", "GMT+5:30", "GMT+05:30", "India Standard Time"⟩

/- ### Decimal-digit lemmas -/

theorem toNat_digitCh (n : Nat) (h : n < 10) : (digitCh n).toNat = 48 + n := by
  unfold digitCh Char.ofNat
  split
  · rfl
  · rename_i hv
    exact absurd (Char.isValidChar_of_isValidCharNat _ (by unfold Char.isValidCharNat; omega)) hv

theorem isDig_digitCh (n : Nat) (h : n < 10) : isDig (digitCh n) = true := by
  simp only [isDig, toNat_digitCh n h]
  simp only [Bool.and_eq_true, decide_eq_true_eq]
  omega

theorem dval_digitCh (n : Nat) (h : n < 10) : dval (digitCh n) = n := by
  unfold dval
  rw [toNat_digitCh n h]
  omega

theorem ofDigits_append (l : List Char) (c : Char) :
    ofDigits (l ++ [c]) = 10 * ofDigits l + dval c := by
  unfold ofDigits
  rw [List.foldl_append]
  rfl

theorem natDigitsAux_succ (fuel n : Nat) : natDigitsAux (fuel + 1) n =
    if n < 10 then [digitCh n] else natDigitsAux fuel (n / 10) ++ [digitCh (n % 10)] := rfl

theorem ofDigits_singleton (c : Char) : ofDigits [c] = dval c := by
  show 10 * 0 + dval c = dval c
  omega

theorem natDigitsAux_spec (fuel : Nat) : ∀ n, n < 10 ^ (fuel + 1) →
    ofDigits (natDigitsAux (fuel + 1) n) = n ∧
    (∀ c ∈ natDigitsAux (fuel + 1) n, isDig c = true) ∧ natDigitsAux (fuel + 1) n ≠ [] := by
  induction fuel with
  | zero =>
    intro n h
    have h10 : n < 10 := by simpa using h
    rw [natDigitsAux_succ, if_pos h10]
    refine ⟨?_, ?_, by simp⟩
    · rw [ofDigits_singleton, dval_digitCh n h10]
    · intro c hc
      rw [List.mem_singleton] at hc
      rw [hc]
      exact isDig_digitCh n h10
  | succ fuel ih =>
    intro n h
    by_cases h10 : n < 10
    · rw [natDigitsAux_succ, if_pos h10]
      refine ⟨?_, ?_, by simp⟩
      · rw [ofDigits_singleton, dval_digitCh n h10]
      · intro c hc
        rw [List.mem_singleton] at hc
        rw [hc]
        exact isDig_digitCh n h10
    · have hdiv : n / 10 < 10 ^ (fuel + 1) := by
        rw [Nat.div_lt_iff_lt_mul (by norm_num)]
        calc n < 10 ^ (fuel + 1 + 1) := h
        _ = 10 ^ (fuel + 1) * 10 := by ring
      obtain ⟨ih1, ih2, ih3⟩ := ih (n / 10) hdiv
      rw [natDigitsAux_succ, if_neg h10]
      refine ⟨?_, ?_, by simp⟩
      · rw [ofDigits_append, ih1, dval_digitCh _ (Nat.mod_lt n (by norm_num))]
        omega
      · intro c hc
        rw [List.mem_append, List.mem_singleton] at hc
        rcases hc with hc | hc
        · exact ih2 c hc
        · rw [hc]
          exact isDig_digitCh _ (Nat.mod_lt n (by norm_num))

theorem natDigits_spec (n : Nat) :
    ofDigits (natDigits n) = n ∧ (∀ c ∈ natDigits n, isDig c = true) ∧ natDigits n ≠ [] := by
  have hn : n < 10 ^ (n + 1) := by
    calc n < 10 ^ n := Nat.lt_pow_self (by norm_num) n
    _ ≤ 10 ^ (n + 1) := Nat.pow_le_pow_right (by norm_num) (Nat.le_succ n)
  exact natDigitsAux_spec n n hn

theorem ofDigits_cons_zero (l : List Char) : ofDigits ('0' :: l) = ofDigits l := rfl

theorem jsNumberL_natDigits (n : Nat) : jsNumberL (natDigits n) = some (n : Int) := by
  obtain ⟨h1, h2, h3⟩ := natDigits_spec n
  unfold jsNumberL
  rw [if_neg h3, if_pos (List.all_eq_true.mpr h2), h1]

theorem intDigits_nonneg (i : Int) (h : 0 ≤ i) : intDigits i = natDigits i.toNat := by
  unfold intDigits
  rw [if_neg (by omega)]

theorem jsNumberL_intDigits (i : Int) (h : 0 ≤ i) : jsNumberL (intDigits i) = some i := by
  rw [intDigits_nonneg i h, jsNumberL_natDigits]
  congr 1
  omega

theorem jsNumberL_pad2 (i : Int) (h : 0 ≤ i) : jsNumberL (pad2 i) = some i := by
  unfold pad2
  split
  · rename_i hlt
    obtain ⟨h1, h2, h3⟩ := natDigits_spec i.toNat
    unfold jsNumberL
    rw [if_neg (by simp), if_pos ?all]
    case all =>
      rw [List.all_eq_true]
      intro c hc
      rw [List.mem_cons] at hc
      rcases hc with hc | hc
      · rw [hc]; decide
      · exact h2 c hc
    rw [ofDigits_cons_zero, h1]
    congr 1
    omega
  · exact jsNumberL_intDigits i h

theorem pad2_digits (i : Int) (h : 0 ≤ i) : ∀ c ∈ pad2 i, isDig c = true := by
  obtain ⟨-, h2, -⟩ := natDigits_spec i.toNat
  unfold pad2
  split
  · intro c hc
    rw [List.mem_cons] at hc
    rcases hc with hc | hc
    · rw [hc]; decide
    · exact h2 c hc
  · rw [intDigits_nonneg i h]
    exact h2

theorem intDigits_digits (i : Int) (h : 0 ≤ i) : ∀ c ∈ intDigits i, isDig c = true := by
  obtain ⟨-, h2, -⟩ := natDigits_spec i.toNat
  rw [intDigits_nonneg i h]
  exact h2

theorem pad2_ne_nil (i : Int) (h : 0 ≤ i) : pad2 i ≠ [] := by
  obtain ⟨-, -, h3⟩ := natDigits_spec i.toNat
  unfold pad2
  split
  · simp
  · rw [intDigits_nonneg i h]
    exact h3

theorem intDigits_ne_nil (i : Int) (h : 0 ≤ i) : intDigits i ≠ [] := by
  obtain ⟨-, -, h3⟩ := natDigits_spec i.toNat
  rw [intDigits_nonneg i h]
  exact h3

/- ### Split lemmas -/

theorem splitCh_cons (sep c : Char) (cs : List Char) : splitCh sep (c :: cs) =
    match splitCh sep cs with
    | [] => [[]]
    | g :: gs => if c = sep then [] :: g :: gs else (c :: g) :: gs := rfl

theorem splitCh_ne_nil (sep : Char) : ∀ l, splitCh sep l ≠ []
  | [] => by simp [splitCh]
  | c :: cs => by
    rw [splitCh_cons]
    rcases splitCh sep cs with _ | ⟨g, gs⟩
    · simp
    · dsimp only
      split <;> simp

theorem splitCh_not_mem {sep : Char} : ∀ {l : List Char}, sep ∉ l → splitCh sep l = [l]
  | [], _ => rfl
  | c :: cs, h => by
    have hc : c ≠ sep := fun he => h (he ▸ List.mem_cons_self c cs)
    have ih := splitCh_not_mem (l := cs) (fun hm => h (List.mem_cons_of_mem _ hm))
    rw [splitCh_cons, ih]
    dsimp only
    rw [if_neg hc]

theorem splitCh_append (sep : Char) : ∀ (a b : List Char), sep ∉ a →
    splitCh sep (a ++ sep :: b) = a :: splitCh sep b
  | [], b, _ => by
    rw [List.nil_append, splitCh_cons]
    rcases hb : splitCh sep b with _ | ⟨g, gs⟩
    · exact absurd hb (splitCh_ne_nil sep b)
    · dsimp only
      rw [if_pos rfl]
  | c :: cs, b, h => by
    have hc : c ≠ sep := fun he => h (he ▸ List.mem_cons_self c cs)
    have ih := splitCh_append sep cs b (fun hm => h (List.mem_cons_of_mem _ hm))
    rw [List.cons_append, splitCh_cons, ih]
    dsimp only
    rw [if_neg hc]

/- ### Parse/render round trip -/

theorem not_mem_of_digits (sep : Char) (hs : isDig sep = false) (l : List Char)
    (h : ∀ c ∈ l, isDig c = true) : sep ∉ l := by
  intro hm
  rw [h sep hm] at hs
  exact Bool.noConfusion hs

/-- A string rendered from nonnegative fields parses back to exactly those
fields (month moved to 0-based), the bridge between `dateToLocalString` output
and `parseIsoLocal`. -/
theorem parse_render (p : FParts) (hy : 0 ≤ p.y) (hmon : 0 ≤ p.mon) (hd : 0 ≤ p.d)
    (hh : 0 ≤ p.h) (hmi : 0 ≤ p.min) :
    parseIsoLocal (isoStringOfParts p) =
      some ⟨some p.y, some (p.mon - 1), some p.d, some p.h, some p.min⟩ := by
  have hdY := intDigits_digits p.y hy
  have hdM := pad2_digits p.mon hmon
  have hdD := pad2_digits p.d hd
  have hdH := pad2_digits p.h hh
  have hdMi := pad2_digits p.min hmi
  have hTA : 'T' ∉ intDigits p.y ++ '-' :: (pad2 p.mon ++ '-' :: pad2 p.d) := by
    intro hm
    simp only [List.mem_append, List.mem_cons] at hm
    rcases hm with hm | hm | hm | hm | hm
    · exact absurd (hdY 'T' hm) (by decide)
    · exact absurd hm (by decide)
    · exact absurd (hdM 'T' hm) (by decide)
    · exact absurd hm (by decide)
    · exact absurd (hdD 'T' hm) (by decide)
  have hTB : 'T' ∉ pad2 p.h ++ ':' :: pad2 p.min := by
    intro hm
    simp only [List.mem_append, List.mem_cons] at hm
    rcases hm with hm | hm | hm
    · exact absurd (hdH 'T' hm) (by decide)
    · exact absurd hm (by decide)
    · exact absurd (hdMi 'T' hm) (by decide)
  have hDashY : '-' ∉ intDigits p.y := not_mem_of_digits '-' (by decide) _ hdY
  have hDashM : '-' ∉ pad2 p.mon := not_mem_of_digits '-' (by decide) _ hdM
  have hDashD : '-' ∉ pad2 p.d := not_mem_of_digits '-' (by decide) _ hdD
  have hColonH : ':' ∉ pad2 p.h := not_mem_of_digits ':' (by decide) _ hdH
  have hColonMi : ':' ∉ pad2 p.min := not_mem_of_digits ':' (by decide) _ hdMi
  have hshape : isoPartsL p =
      (intDigits p.y ++ '-' :: (pad2 p.mon ++ '-' :: pad2 p.d)) ++
        'T' :: (pad2 p.h ++ ':' :: pad2 p.min) := by
    simp [isoPartsL, List.append_assoc]
  have hsplitT : splitCh 'T' (isoPartsL p) =
      [intDigits p.y ++ '-' :: (pad2 p.mon ++ '-' :: pad2 p.d),
       pad2 p.h ++ ':' :: pad2 p.min] := by
    rw [hshape, splitCh_append 'T' _ _ hTA, splitCh_not_mem hTB]
  have hsplitD : splitCh '-' (intDigits p.y ++ '-' :: (pad2 p.mon ++ '-' :: pad2 p.d)) =
      [intDigits p.y, pad2 p.mon, pad2 p.d] := by
    rw [splitCh_append '-' _ _ hDashY, splitCh_append '-' _ _ hDashM, splitCh_not_mem hDashD]
  have hsplitC : splitCh ':' (pad2 p.h ++ ':' :: pad2 p.min) = [pad2 p.h, pad2 p.min] := by
    rw [splitCh_append ':' _ _ hColonH, splitCh_not_mem hColonMi]
  have hne : isoPartsL p ≠ [] := by
    rw [hshape]
    simp
  show parseIsoLocalL (isoPartsL p) = _
  unfold parseIsoLocalL
  rw [if_neg hne]
  simp only [hsplitT, sget, List.getD, List.get?_cons_zero, List.get?_cons_succ,
    Option.getD_some]
  rw [if_neg (by simp [List.append_eq_nil])]
  simp only [hsplitD, hsplitC, List.map_cons, List.map_nil,
    jsNumberL_intDigits p.y hy, jsNumberL_pad2 p.mon hmon, jsNumberL_pad2 p.d hd,
    jsNumberL_pad2 p.h hh, jsNumberL_pad2 p.min hmi, jget, List.getD,
    List.get?_cons_zero, List.get?_cons_succ, Option.getD_some]
  rfl

/- ### Convergence of the resolve loop over offset zones -/

theorem convergeLoop_succ (f : Fmt) (desired : Int) (fuel : Nat) (g : Int) :
    convergeLoop f desired (fuel + 1) g =
      if (desired - observedMs f g).natAbs < 1000 then g
      else convergeLoop f desired fuel (g + (desired - observedMs f g)) := rfl

theorem minuteFloor_eq (x : Int) (h : (60000 : Int) ∣ x) : minuteFloor x = x := by
  unfold minuteFloor
  omega

theorem observedMs_offset (f : Fmt) (off : Int → Int) (center : Int)
    (hz : OffsetZone f off center) (g : Int) (hball : (g - center).natAbs ≤ 50400000) :
    observedMs f g = minuteFloor (g + off g) := by
  have hv := hz.valid g hball
  unfold ValidParts at hv
  show utcEncode (f g).y ((f g).mon - 1) (f g).d (if (f g).h = 24 then 0 else (f g).h) (f g).min
    = minuteFloor (g + off g)
  rw [if_neg (by omega)]
  exact hz.encode g

theorem observedMs_offset_eq (f : Fmt) (off : Int → Int) (center : Int)
    (hz : OffsetZone f off center) (g : Int) (hball : (g - center).natAbs ≤ 50400000)
    (hdvd : (60000 : Int) ∣ g) : observedMs f g = g + off g := by
  have hwm := hz.wholeMinute g
  rw [observedMs_offset f off center hz g hball, minuteFloor_eq _ (by omega)]

/-- Inside a zone whose offset is locally constant around `t` (no DST
transition within the 2 h buffer), the three-iteration loop seeded at the
naive encoding `t + off t` lands exactly on `t`. -/
theorem convergeLoop_exact (f : Fmt) (off : Int → Int) (t : Int)
    (hz : OffsetZone f off t) (ht : (60000 : Int) ∣ t) :
    convergeLoop f (t + off t) 3 (t + off t) = t := by
  have hbt := hz.bounded t
  have hwt := hz.wholeMinute t
  set n := t + off t with hn
  have hbn := hz.bounded n
  have hwn := hz.wholeMinute n
  have hspn := hz.spread t n
  have hobs0 : observedMs f n = n + off n :=
    observedMs_offset_eq f off t hz n (by omega) (by omega)
  rw [show (3 : Nat) = 2 + 1 from rfl, convergeLoop_succ, hobs0]
  by_cases h0 : (n - (n + off n)).natAbs < 1000
  · rw [if_pos h0]
    have hoffn : off n = 0 := by omega
    have hstn : off n = off t := hz.stable n (by omega)
    omega
  · rw [if_neg h0]
    have hg1 : n + (n - (n + off n)) = n - off n := by ring
    rw [hg1]
    have hst1 : off (n - off n) = off t := hz.stable (n - off n) (by omega)
    have hw1 := hz.wholeMinute (n - off n)
    have hobs1 : observedMs f (n - off n) = (n - off n) + off (n - off n) :=
      observedMs_offset_eq f off t hz (n - off n) (by omega) (by omega)
    rw [show (2 : Nat) = 1 + 1 from rfl, convergeLoop_succ, hobs1, hst1]
    by_cases h1 : (n - (n - off n + off t)).natAbs < 1000
    · rw [if_pos h1]
      omega
    · rw [if_neg h1]
      have hg2 : n - off n + (n - (n - off n + off t)) = t := by omega
      rw [hg2]
      have hobs2 : observedMs f t = t + off t :=
        observedMs_offset_eq f off t hz t (by omega) (by omega)
      rw [convergeLoop_succ, hobs2]
      rw [if_pos (by omega)]

/-- A wall clock rendered by an offset zone at an in-buffer whole-minute
instant resolves back to exactly that instant. -/
theorem localStringToDate_exact (f : Fmt) (off : Int → Int) (t : Int)
    (hz : OffsetZone f off t) (ht : (60000 : Int) ∣ t) :
    localStringToDate (some f) (isoStringOfParts (f t)) = .value (some (some t)) := by
  have hv := hz.valid t (by omega)
  unfold ValidParts at hv
  have hpr := parse_render (f t) (by omega) (by omega) (by omega) (by omega) (by omega)
  have henc : utcEncode (f t).y ((f t).mon - 1) (f t).d (f t).h (f t).min = t + off t := by
    have hwt := hz.wholeMinute t
    rw [hz.encode t, minuteFloor_eq _ (by omega)]
  unfold localStringToDate
  rw [hpr]
  show JsResult.value (some (some (convergeLoop f
    (utcEncode (f t).y ((f t).mon - 1) (f t).d (f t).h (f t).min) 3
    (utcEncode (f t).y ((f t).mon - 1) (f t).d (f t).h (f t).min)))) = _
  rw [henc, convergeLoop_exact f off t hz ht]

/- ### The fixed-offset witness zone -/

theorem daysFromCivil_1970_jan (d : Int) : daysFromCivil 1970 1 d = d - 1 := by
  simp only [daysFromCivil]
  rw [if_pos (by norm_num)]
  omega

theorem utcEncode_epoch (d h mi : Int) :
    utcEncode 1970 0 d h mi = (d - 1) * 86400000 + h * 3600000 + mi * 60000 := by
  simp only [utcEncode]
  rw [if_neg (by norm_num)]
  norm_num
  rw [daysFromCivil_1970_jan]

theorem enc_epochParts (x : Int) :
    utcEncode (epochParts x).y ((epochParts x).mon - 1) (epochParts x).d (epochParts x).h
      (epochParts x).min = minuteFloor x := by
  simp only [epochParts]
  norm_num
  rw [utcEncode_epoch]
  unfold minuteFloor
  omega

theorem epochParts_valid (x : Int) (h0 : 0 ≤ x) (h1 : x < 28 * 86400000) :
    ValidParts (epochParts x) := by
  unfold ValidParts epochParts
  norm_num
  omega

/-- Any whole-minute fixed offset within ±14 h makes `epochFmt` a model
offset zone around any center that keeps its ±14 h ball in late January
1970. -/
theorem epochFmt_offsetZone (c center : Int) (hc : c.natAbs ≤ 50400000)
    (hcm : (60000 : Int) ∣ c) (hlo : 0 ≤ center - 50400000 + c)
    (hhi : center + 50400000 + c < 28 * 86400000) :
    OffsetZone (epochFmt c) (fun _ => c) center := by
  refine ⟨fun t => enc_epochParts (t + c), ?_, fun s => hc, fun s => hcm, ?_, fun u hu => rfl⟩
  · intro t hball
    exact epochParts_valid (t + c) (by omega) (by omega)
  · intro s u
    simp

/- ### Claim theorems -/

/-- Claim C2: for every pair of zones and every wall-clock value strictly
outside the DST transition windows of either zone, `convert` A→B followed by
`convert` B→A reproduces the wall clock exactly.  The zones are spec §6
formatters behaving as offset zones (`OffsetZone`): valid fields, whole-minute
offsets within the IANA ±14 h range, pairwise offset differences within the
spec §4.1 2 h DST-shift bound, and — the formal rendering of "strictly outside
any DST transition window with a 2-hour buffer" — an offset constant on the
2 h buffer around the whole-minute instant `t` whose A-zone display is the
wall-clock value. -/
theorem C2_convert_roundtrip (fA fB : Fmt) (offA offB : Int → Int) (t : Int)
    (hzA : OffsetZone fA offA t) (hzB : OffsetZone fB offB t)
    (ht : (60000 : Int) ∣ t) :
    convert (some fB) (some fA) (convert (some fA) (some fB) (isoStringOfParts (fA t))) =
      isoStringOfParts (fA t) := by
  have h1 : convert (some fA) (some fB) (isoStringOfParts (fA t)) = isoStringOfParts (fB t) := by
    unfold convert
    rw [localStringToDate_exact fA offA t hzA ht]
    rfl
  rw [h1]
  unfold convert
  rw [localStringToDate_exact fB offB t hzB ht]
  rfl

/-- Witness for C2 at UTC and UTC+1 fixed-offset zones around
1970-01-03T12:00. -/
theorem C2_convert_roundtrip_witness :
    convert (some (epochFmt 3600000)) (some (epochFmt 0))
        (convert (some (epochFmt 0)) (some (epochFmt 3600000))
          (isoStringOfParts (epochFmt 0 216000000))) =
      isoStringOfParts (epochFmt 0 216000000) :=
  C2_convert_roundtrip (epochFmt 0) (epochFmt 3600000) (fun _ => 0) (fun _ => 3600000) 216000000
    (epochFmt_offsetZone 0 216000000 (by decide) (by decide) (by decide) (by decide))
    (epochFmt_offsetZone 3600000 216000000 (by decide) (by decide) (by decide) (by decide))
    (by decide)

theorem gSeq_succ (f : Fmt) (n : Int) (k : Nat) :
    gSeq f n (k + 1) = gSeq f n k + (n - observedMs f (gSeq f n k)) := rfl

/-- With a parsed input, encodable fields and a resolvable zone, the function
runs the three-iteration loop seeded at the naive encoding. -/
theorem localStringToDate_eq (f : Fmt) (s : String) (c : RawClock) (n : Int)
    (hp : parseIsoLocal s = some c) (he : utcEncodeRaw c = some n) :
    localStringToDate (some f) s = .value (some (some (convergeLoop f n 3 n))) := by
  unfold localStringToDate
  rw [hp]
  dsimp only
  rw [he]

/-- Claim C1: for every parseable wall-clock string (whose fields encode to an
instant) and resolvable zone, `localStringToDate` follows the spec §4.1
iterative convergence algorithm: the provisional instant is seeded with the
naive-UTC encoding `n` of the parsed fields; the loop walks the spec's
provisional sequence `gSeq` (each step shifted by the desired-minus-observed
delta) for at most 3 iterations; it stops at the first sub-second delta; and
when the bound is exhausted it still returns the last provisional instant. -/
theorem C1_resolve_follows_spec (f : Fmt) (s : String) (c : RawClock) (n : Int)
    (hp : parseIsoLocal s = some c) (he : utcEncodeRaw c = some n) :
    ∃ k ≤ 3, localStringToDate (some f) s = .value (some (some (gSeq f n k))) ∧
      gSeq f n 0 = n ∧
      (∀ j, j < k → ¬ convergedAt f n (gSeq f n j)) ∧
      (k < 3 → convergedAt f n (gSeq f n k)) := by
  rw [localStringToDate_eq f s c n hp he]
  have e1 : gSeq f n 1 = n + (n - observedMs f n) := rfl
  by_cases h0 : (n - observedMs f n).natAbs < 1000
  · refine ⟨0, by omega, ?_, rfl, fun j hj => absurd hj (by omega), fun _ => h0⟩
    rw [show (3 : Nat) = 2 + 1 from rfl, convergeLoop_succ, if_pos h0]
    rfl
  · by_cases h1 : (n - observedMs f (gSeq f n 1)).natAbs < 1000
    · refine ⟨1, by omega, ?_, rfl, ?_, fun _ => h1⟩
      · rw [show (3 : Nat) = 2 + 1 from rfl, convergeLoop_succ, if_neg h0,
          show (2 : Nat) = 1 + 1 from rfl, convergeLoop_succ, ← e1, if_pos h1]
      · intro j hj
        interval_cases j
        exact h0
    · by_cases h2 : (n - observedMs f (gSeq f n 2)).natAbs < 1000
      · refine ⟨2, by omega, ?_, rfl, ?_, fun _ => h2⟩
        · rw [show (3 : Nat) = 2 + 1 from rfl, convergeLoop_succ, if_neg h0,
            show (2 : Nat) = 1 + 1 from rfl, convergeLoop_succ, ← e1, if_neg h1,
            show (1 : Nat) = 0 + 1 from rfl, convergeLoop_succ, ← gSeq_succ, if_pos h2]
        · intro j hj
          interval_cases j
          · exact h0
          · exact h1
      · refine ⟨3, by omega, ?_, rfl, ?_, fun hlt => absurd hlt (by omega)⟩
        · rw [show (3 : Nat) = 2 + 1 from rfl, convergeLoop_succ, if_neg h0,
            show (2 : Nat) = 1 + 1 from rfl, convergeLoop_succ, ← e1, if_neg h1,
            show (1 : Nat) = 0 + 1 from rfl, convergeLoop_succ, ← gSeq_succ, if_neg h2]
          rfl
        · intro j hj
          interval_cases j
          · exact h0
          · exact h1
          · exact h2

/-- Witness for C1 at a constant formatter and a concrete parseable string. -/
theorem C1_resolve_follows_spec_witness :
    ∃ k ≤ 3, localStringToDate (some fConst2024) "2024-01-15T14:00" =
        .value (some (some (gSeq fConst2024 1705327200000 k))) ∧
      gSeq fConst2024 1705327200000 0 = 1705327200000 ∧
      (∀ j, j < k → ¬ convergedAt fConst2024 1705327200000 (gSeq fConst2024 1705327200000 j)) ∧
      (k < 3 → convergedAt fConst2024 1705327200000 (gSeq fConst2024 1705327200000 k)) :=
  C1_resolve_follows_spec fConst2024 "2024-01-15T14:00"
    ⟨some 2024, some 0, some 15, some 14, some 0⟩ 1705327200000 (by decide) (by decide)

/-- Claim C9: inside the convergence loop (and only there) a
formatter-reported hour of 24 is normalized to hour 0 of the same calendar day
before the delta is computed: the observed encode cannot distinguish a
formatter reporting 24 from one reporting 0 on the same date, the fields used
for convergence never contain hour 24, and at an hour-24 report the observed
value is that of hour 0 on the same y/m/d. -/
theorem C9_loop_hour24_normalized :
    (∀ (f : Fmt) (g : Int), observedMs (fun u => h24norm (f u)) g = observedMs f g) ∧
    (∀ p : FParts, (h24norm p).h ≠ 24 ∧ (h24norm p).y = p.y ∧ (h24norm p).mon = p.mon ∧
      (h24norm p).d = p.d ∧ (h24norm p).min = p.min) ∧
    (∀ (f : Fmt) (g : Int), (f g).h = 24 →
      observedMs f g = utcEncode (f g).y ((f g).mon - 1) (f g).d 0 (f g).min) := by
  refine ⟨?_, ?_, ?_⟩
  · intro f g
    unfold observedMs h24norm
    by_cases h : (f g).h = 24
    · simp [h]
    · simp [h]
  · intro p
    unfold h24norm
    by_cases h : p.h = 24
    · simp [h]
    · simp [h]
  · intro f g h
    show utcEncode (f g).y ((f g).mon - 1) (f g).d (if (f g).h = 24 then 0 else (f g).h)
      (f g).min = _
    rw [if_pos h]

/-- Witness for C9's hour-24 branch at a formatter reporting 24. -/
theorem C9_loop_hour24_normalized_witness :
    observedMs fmt24 0 =
      utcEncode (fmt24 0).y ((fmt24 0).mon - 1) (fmt24 0).d 0 (fmt24 0).min := by
  have h := C9_loop_hour24_normalized
  exact h.2.2 fmt24 0 (by decide)

/-- Claim C3 counterexample: a resolvable zone whose formatter reports hour 24
at midnight makes `dateToLocalString` emit hour 24 verbatim — the claimed
normalization to hour 0 of the same day does not happen in this function. -/
theorem C3_counterexample :
    dateToLocalString (some fmt24) (some 0) = "2024-01-15T24:00" ∧
    dateToLocalString (some fmt24) (some 0) ≠ "2024-01-15T00:00" := by
  constructor
  · rfl
  · decide

/-- Claim C3 (amended): `dateToLocalString` emits the formatter's reported
hour verbatim and performs no hour-24 normalization: parsing the rendered
string recovers exactly the reported fields, hour 24 included; the output
avoids hour 24 only when the formatter itself reports 0 at midnight (the 24→0
fix lives inside `localStringToDate`'s loop, claim C9). -/
theorem C3_render_emits_reported_hour (f : Fmt) (t : Int) (hy : 0 ≤ (f t).y)
    (hmon : 0 ≤ (f t).mon) (hd : 0 ≤ (f t).d) (hh : 0 ≤ (f t).h) (hmi : 0 ≤ (f t).min) :
    parseIsoLocal (dateToLocalString (some f) (some t)) =
      some ⟨some (f t).y, some ((f t).mon - 1), some (f t).d, some (f t).h, some (f t).min⟩ :=
  parse_render (f t) hy hmon hd hh hmi

/-- Witness for C3's amended theorem at the hour-24 formatter. -/
theorem C3_render_emits_reported_hour_witness :
    parseIsoLocal (dateToLocalString (some fmt24) (some 0)) =
      some ⟨some 2024, some 0, some 15, some 24, some 0⟩ := by
  have h := C3_render_emits_reported_hour fmt24 0 (by decide) (by decide) (by decide)
    (by decide) (by decide)
  exact h

/-- Claim C6 counterexample: clearing the user field does not leave the
anchor state unchanged — a client-anchored state becomes user-anchored. -/
theorem C6_counterexample :
    handleUserTimeChange none none "" ⟨"1970-01-03T12:00", "1970-01-03T13:00", Side.client⟩ =
      .ok ⟨"", "", Side.user⟩ ∧ Side.user ≠ Side.client := by
  constructor
  · rfl
  · decide

/-- Claim C6 (amended): clearing either wall-clock field clears the other
field too, and sets the anchor to the cleared side — the handler updates
`lastEdited` unconditionally, so the anchor does not survive a clear of the
non-anchored field. -/
theorem C6_clear_clears_other (uz cz : Option Fmt) (st : PlannerState) :
    handleUserTimeChange uz cz "" st = .ok ⟨"", "", Side.user⟩ ∧
    handleClientTimeChange uz cz "" st = .ok ⟨"", "", Side.client⟩ := by
  constructor <;> rfl

/-- Claim C7 counterexample: a nonempty but unparsable wall-clock input ("no
time part") leaves the dependent field with its stale value instead of
clearing it. -/
theorem C7_counterexample :
    handleUserTimeChange (some (epochFmt 0)) (some (epochFmt 3600000)) "1970-01-03"
        ⟨"1970-01-03T12:00", "1970-01-03T13:00", Side.user⟩ =
      .ok ⟨"1970-01-03", "1970-01-03T13:00", Side.user⟩ ∧
    ("1970-01-03T13:00" : String) ≠ "" := by
  constructor
  · rfl
  · decide

/-- Claim C7 (amended): for a nonempty input the parser rejects, the
conversion is skipped and the dependent field keeps its previous (stale)
value rather than being cleared; only the edited field and the anchor
change. -/
theorem C7_malformed_keeps_stale (uz cz : Option Fmt) (val : String) (st : PlannerState)
    (hne : val ≠ "") (hp : parseIsoLocal val = none) :
    handleUserTimeChange uz cz val st = .ok ⟨val, st.clientMeetingTime, Side.user⟩ ∧
    handleClientTimeChange uz cz val st = .ok ⟨st.userMeetingTime, val, Side.client⟩ := by
  have hres : ∀ z : Option Fmt, localStringToDate z val = .value none := by
    intro z
    unfold localStringToDate
    rw [hp]
  constructor
  · unfold handleUserTimeChange
    rw [if_neg hne, hres]
  · unfold handleClientTimeChange
    rw [if_neg hne, hres]

/-- Witness for C7's amended theorem at a concrete unparsable input. -/
theorem C7_malformed_keeps_stale_witness :
    handleUserTimeChange (some (epochFmt 0)) (some (epochFmt 3600000)) "1970-01-03"
        ⟨"a", "b", Side.client⟩ = .ok ⟨"1970-01-03", "b", Side.user⟩ ∧
    handleClientTimeChange (some (epochFmt 0)) (some (epochFmt 3600000)) "1970-01-03"
        ⟨"a", "b", Side.user⟩ = .ok ⟨"a", "1970-01-03", Side.client⟩ := by
  have h1 := C7_malformed_keeps_stale (some (epochFmt 0)) (some (epochFmt 3600000))
    "1970-01-03" ⟨"a", "b", Side.client⟩ (by decide) (by decide)
  have h2 := C7_malformed_keeps_stale (some (epochFmt 0)) (some (epochFmt 3600000))
    "1970-01-03" ⟨"a", "b", Side.user⟩ (by decide) (by decide)
  exact ⟨h1.1, h2.2⟩

theorem localStringToDate_empty (z : Option Fmt) : localStringToDate z "" = .value none := rfl

theorem parseIsoLocalL_eq (l : List Char) : parseIsoLocalL l =
    if l = [] then none
    else if sget (splitCh 'T' l) 0 = [] ∨ sget (splitCh 'T' l) 1 = [] then none
    else some ⟨jget ((splitCh '-' (sget (splitCh 'T' l) 0)).map jsNumberL) 0,
      (jget ((splitCh '-' (sget (splitCh 'T' l) 0)).map jsNumberL) 1).map (fun x => x - 1),
      jget ((splitCh '-' (sget (splitCh 'T' l) 0)).map jsNumberL) 2,
      jget ((splitCh ':' (sget (splitCh 'T' l) 1)).map jsNumberL) 0,
      jget ((splitCh ':' (sget (splitCh 'T' l) 1)).map jsNumberL) 1⟩ := rfl

/-- Claim C4: the bidirectional synchronization state machine matches the spec
on every transition: editing a side's wall-clock value anchors that side and
recomputes the other side through `convert` from the edited side's zone
(symmetrically for both sides); and a zone change (the sync effect) leaves the
anchored side's wall-clock value and the anchor unchanged and recomputes only
the non-anchored side by re-running `convert` from the anchored side's zone. -/
theorem C4_state_machine :
    (∀ (uz cz : Option Fmt) (val : String) (st : PlannerState) (d : Int),
      localStringToDate uz val = .value (some (some d)) →
      handleUserTimeChange uz cz val st = .ok ⟨val, convert uz cz val, Side.user⟩ ∧
        convert uz cz val = dateToLocalString cz (some d)) ∧
    (∀ (uz cz : Option Fmt) (val : String) (st : PlannerState) (d : Int),
      localStringToDate cz val = .value (some (some d)) →
      handleClientTimeChange uz cz val st = .ok ⟨convert cz uz val, val, Side.client⟩ ∧
        convert cz uz val = dateToLocalString uz (some d)) ∧
    (∀ (uz cz : Option Fmt) (st : PlannerState) (d : Int),
      st.lastEdited = Side.user →
      localStringToDate uz st.userMeetingTime = .value (some (some d)) →
      syncEffect uz cz st =
        .ok ⟨st.userMeetingTime, convert uz cz st.userMeetingTime, st.lastEdited⟩) ∧
    (∀ (uz cz : Option Fmt) (st : PlannerState) (d : Int),
      st.lastEdited = Side.client →
      localStringToDate cz st.clientMeetingTime = .value (some (some d)) →
      syncEffect uz cz st =
        .ok ⟨convert cz uz st.clientMeetingTime, st.clientMeetingTime, st.lastEdited⟩) := by
  have hval_ne : ∀ (z : Option Fmt) (val : String) (d : Int),
      localStringToDate z val = .value (some (some d)) → val ≠ "" := by
    intro z val d h hv
    rw [hv, localStringToDate_empty] at h
    simp at h
  refine ⟨?_, ?_, ?_, ?_⟩
  · intro uz cz val st d h
    have hne := hval_ne uz val d h
    have hconv : convert uz cz val = dateToLocalString cz (some d) := by
      unfold convert
      rw [h]
    refine ⟨?_, hconv⟩
    unfold handleUserTimeChange
    rw [if_neg hne, h, hconv]
  · intro uz cz val st d h
    have hne := hval_ne cz val d h
    have hconv : convert cz uz val = dateToLocalString uz (some d) := by
      unfold convert
      rw [h]
    refine ⟨?_, hconv⟩
    unfold handleClientTimeChange
    rw [if_neg hne, h, hconv]
  · intro uz cz st d hanchor h
    have hne := hval_ne uz st.userMeetingTime d h
    have hconv : convert uz cz st.userMeetingTime = dateToLocalString cz (some d) := by
      unfold convert
      rw [h]
    unfold syncEffect
    rw [if_pos ⟨hanchor, hne⟩, h, hconv, hanchor]
  · intro uz cz st d hanchor h
    have hne := hval_ne cz st.clientMeetingTime d h
    have hconv : convert cz uz st.clientMeetingTime = dateToLocalString uz (some d) := by
      unfold convert
      rw [h]
    unfold syncEffect
    rw [if_neg (fun hcon => by rw [hanchor] at hcon; exact Side.noConfusion hcon.1),
      if_pos ⟨hanchor, hne⟩, h, hconv, hanchor]

/-- Witness for C4 at two fixed-offset zones (UTC, UTC+1) and concrete edit
and zone-change events. -/
theorem C4_state_machine_witness :
    (handleUserTimeChange (some (epochFmt 0)) (some (epochFmt 3600000)) "1970-01-03T12:00"
        ⟨"a", "b", Side.client⟩ =
      .ok ⟨"1970-01-03T12:00",
        convert (some (epochFmt 0)) (some (epochFmt 3600000)) "1970-01-03T12:00", Side.user⟩) ∧
    (handleClientTimeChange (some (epochFmt 0)) (some (epochFmt 3600000)) "1970-01-03T13:00"
        ⟨"a", "b", Side.user⟩ =
      .ok ⟨convert (some (epochFmt 3600000)) (some (epochFmt 0)) "1970-01-03T13:00",
        "1970-01-03T13:00", Side.client⟩) ∧
    (syncEffect (some (epochFmt 0)) (some (epochFmt 3600000))
        ⟨"1970-01-03T12:00", "b", Side.user⟩ =
      .ok ⟨"1970-01-03T12:00",
        convert (some (epochFmt 0)) (some (epochFmt 3600000)) "1970-01-03T12:00", Side.user⟩) ∧
    (syncEffect (some (epochFmt 0)) (some (epochFmt 3600000))
        ⟨"a", "1970-01-03T13:00", Side.client⟩ =
      .ok ⟨convert (some (epochFmt 3600000)) (some (epochFmt 0)) "1970-01-03T13:00",
        "1970-01-03T13:00", Side.client⟩) := by
  have h := C4_state_machine
  exact ⟨(h.1 _ _ _ _ 216000000 (by decide)).1, (h.2.1 _ _ _ _ 216000000 (by decide)).1,
    h.2.2.1 _ _ _ 216000000 rfl (by decide), h.2.2.2 _ _ _ 216000000 rfl (by decide)⟩

/-- Claim C5 counterexample: with an unresolvable zone and a parseable input
string, `localStringToDate` throws (the function has no try/catch, so the
formatter constructor's RangeError escapes) instead of returning an
empty/placeholder result. -/
theorem C5_counterexample :
    localStringToDate none "1970-01-03T12:00" = JsResult.thrown ∧
    JsResult.thrown ≠ JsResult.value (none : Option JsDate) := by
  constructor
  · rfl
  · decide

/-- Claim C5 (amended): with an unresolvable zone identifier,
`dateToLocalString` and `getAbbreviation` degrade to the empty string, but
`localStringToDate` does not: it returns null only when the parse fails, and
with a parseable input it propagates the zone-resolution exception. -/
theorem C5_unresolvable_zone :
    (∀ d : JsDate, dateToLocalString none d = "") ∧
    (∀ d : JsDate, getAbbreviation none d = "") ∧
    (∀ (s : String) (c : RawClock), parseIsoLocal s = some c →
      localStringToDate none s = JsResult.thrown) ∧
    (∀ s : String, parseIsoLocal s = none → localStringToDate none s = JsResult.value none) := by
  refine ⟨fun d => ?_, fun d => ?_, fun s c hp => ?_, fun s hp => ?_⟩
  · cases d <;> rfl
  · cases d <;> rfl
  · unfold localStringToDate
    rw [hp]
  · unfold localStringToDate
    rw [hp]

/-- Witness for C5 at concrete inputs. -/
theorem C5_unresolvable_zone_witness :
    dateToLocalString none (some 0) = "" ∧ getAbbreviation none (some 0) = "" ∧
    localStringToDate none "1970-01-03T12:00" = JsResult.thrown ∧
    localStringToDate none "1970-01-03" = JsResult.value none := by
  have h := C5_unresolvable_zone
  exact ⟨h.1 _, h.2.1 _,
    h.2.2.1 _ ⟨some 1970, some 0, some 3, some 12, some 0⟩ (by decide),
    h.2.2.2 _ (by decide)⟩

/-- Claim C10 counterexample: an input with both 'T'-separated parts present
but a malformed numeric field does not yield a non-null instant — the
Invalid-Date seed makes `formatToParts` throw instead. -/
theorem C10_counterexample :
    localStringToDate (some (epochFmt 0)) "1970-01-03Tx:00" = JsResult.thrown ∧
    parseIsoLocal "1970-01-03Tx:00" ≠ none := by
  constructor
  · rfl
  · decide

/-- Claim C10 (amended): `localStringToDate` returns null exactly when the
input is empty or lacks a 'T'-separated date or time part (the parser rejects
nothing else); when both parts are present it never returns null — with
well-formed numeric fields and a resolvable zone it returns an instant, and
with a malformed numeric field (or unresolvable zone) it throws rather than
returning. -/
theorem C10_null_iff_missing_part :
    (∀ (z : Option Fmt) (s : String),
      localStringToDate z s = JsResult.value none ↔ parseIsoLocal s = none) ∧
    (∀ s : String, parseIsoLocal s = none ↔
      (s.data = [] ∨ sget (splitCh 'T' s.data) 0 = [] ∨ sget (splitCh 'T' s.data) 1 = [])) ∧
    (∀ (f : Fmt) (s : String) (c : RawClock) (n : Int), parseIsoLocal s = some c →
      utcEncodeRaw c = some n →
      localStringToDate (some f) s = JsResult.value (some (some (convergeLoop f n 3 n)))) ∧
    (∀ (f : Fmt) (s : String) (c : RawClock), parseIsoLocal s = some c →
      utcEncodeRaw c = none → localStringToDate (some f) s = JsResult.thrown) := by
  refine ⟨fun z s => ?_, fun s => ?_, localStringToDate_eq, fun f s c hp he => ?_⟩
  · constructor
    · intro h
      rcases hp : parseIsoLocal s with - | c
      · rfl
      · unfold localStringToDate at h
        rw [hp] at h
        rcases z with - | f
        · simp at h
        · rcases he : utcEncodeRaw c with - | n
          · dsimp only at h
            rw [he] at h
            simp at h
          · dsimp only at h
            rw [he] at h
            simp at h
    · intro hp
      unfold localStringToDate
      rw [hp]
  · rw [show parseIsoLocal s = parseIsoLocalL s.data from rfl, parseIsoLocalL_eq]
    split_ifs with h1 h2
    · exact iff_of_true rfl (Or.inl h1)
    · exact iff_of_true rfl (Or.inr h2)
    · exact iff_of_false (by simp) (fun hor => hor.elim h1 h2)
  · unfold localStringToDate
    rw [hp]
    dsimp only
    rw [he]

/-- Witness for C10 at concrete inputs: a missing time part, a well-formed
input, and a malformed numeric field. -/
theorem C10_null_iff_missing_part_witness :
    localStringToDate (some (epochFmt 0)) "1970-01-03" = JsResult.value none ∧
    localStringToDate (some (epochFmt 0)) "1970-01-03T12:00" =
      JsResult.value (some (some (convergeLoop (epochFmt 0) 216000000 3 216000000))) ∧
    localStringToDate (some (epochFmt 0)) "1970-01-03Tx:00" = JsResult.thrown := by
  have h := C10_null_iff_missing_part
  exact ⟨(h.1 _ _).mpr (by decide),
    h.2.2.1 _ _ ⟨some 1970, some 0, some 3, some 12, some 0⟩ 216000000 (by decide) (by decide),
    h.2.2.2 _ _ ⟨some 1970, some 0, some 3, none, some 0⟩ (by decide) (by decide)⟩

theorem acronymOf_empty : acronymOf "" = "" := rfl

/-- Claim C8: `getAbbreviation` derives its label exactly as specified: an
offset-pattern short name (GMT±/UTC± prefix) triggers the capital-acronym
heuristic on the long name, the acronym is accepted only at 2-5 letters and
otherwise the offset-style short name stands; the final label is
"abbrev (offset)", collapsing to one component when abbreviation and offset
coincide or when no letter abbreviation was found.  For the Asia/Kolkata
shapes, the label is "IST (GMT+5:30)", never the bare offset. -/
theorem C8_abbreviation_matches_spec :
    (∀ (f : NameFmt) (t : Int), getAbbreviation (some f) (some t) = zoneAbbreviationSpec (f t)) ∧
    getAbbreviation (some kolkataFmt) (some 0) = "IST (GMT+5:30)" := by
  constructor
  · intro f t
    simp only [getAbbreviation, zoneAbbreviationSpec]
    by_cases hlong : (f t).long = ""
    · rw [hlong, acronymOf_empty, if_neg (show ¬(("" : String) ≠ "") from by simp),
        if_neg (show ¬(2 ≤ ("" : String).length ∧ ("" : String).length ≤ 5) from by decide)]
    · rw [if_pos hlong]
  · rfl

end TimeTools
